import Mathlib

/-!
Shallow embedding of `whobpyt/optimization/modelfitting.py` (class
`Model_fitting`, methods `train` and `evaluate`) and
`whobpyt/functions/arg_type_check.py` (`method_arg_type_check`).

The model, the cost function and the numpy correlation routines are
external collaborators of the fitting loop; they enter the embedding as
fields of a context structure `Ctx`, exactly at the call sites the source
uses them.  Scalars are modelled by integers (a subring of the source's
floats; no claim here involves division or rounding - every settled
property is structural: lengths, control flow, which data is fed where).
-/

namespace Whobpyt

/-- Scalar signal values.  The source computes in floating point; the
claims settled here are all structural, so the integers (closed under
the +, *, comparisons the embedding performs) are an adequate scalar
model - no embedded operation divides. -/
abbrev Scalar := ℤ

/-- A 2-D numpy array, channels by time, as a list of rows. -/
abbrev Mat := List (List Scalar)

/-- A 3-D numpy array with the stimulus layout
`(node_size, steps_per_TR, time)`. -/
abbrev Tensor3 := List Mat

/-- The all-zero 3-D array `np.zeros([n, s, t])`. -/
def zeros3 (n s t : Nat) : Tensor3 :=
  List.replicate n (List.replicate s (List.replicate t (0 : Scalar)))

/-- Numpy slicing `a[:, :, lo:hi]` along the last axis. -/
def slice3 (a : Tensor3) (lo hi : Nat) : Tensor3 :=
  a.map (fun m => m.map (fun row => (row.drop lo).take (hi - lo)))

/-- Entry lookup in a 3-D array, with numpy-irrelevant out-of-range
reads defaulting to `0` (our theorems only read in range). -/
def get3 (a : Tensor3) (i j k : Nat) : Scalar :=
  ((a.getD i []).getD j []).getD k 0

/-- Horizontal concatenation of two matrices (`np.concatenate(_, axis=1)`
for two blocks with the same number of rows). -/
def hcat (m1 m2 : Mat) : Mat := m1.zipWith (· ++ ·) m2

/-- `np.concatenate(blocks, axis=1)` over a list of equally-tall blocks. -/
def hcatAll : List Mat → Mat
  | [] => []
  | m :: ms => ms.foldl hcat m

/-- The index pairs of `np.tril_indices(n, -1)`: strictly-below-diagonal
positions in row-major order. -/
def trilPairs (n : Nat) : List (Nat × Nat) :=
  (List.range n).flatMap (fun i => (List.range i).map (fun j => (i, j)))

/-- Fancy indexing `m[np.tril_indices(n, -1)]`. -/
def maskVals (n : Nat) (m : Mat) : List Scalar :=
  (trilPairs n).map (fun ij => (m.getD ij.1 []).getD ij.2 0)

/-- A Python dict of histories, modelled as a function updated in the same
per-key loop order the source uses (`g` rewrites one key's entry from its
previous value). -/
def updFold {α : Type} (keys : List String) (g : String → α → α)
    (f : String → α) : String → α :=
  keys.foldl (fun acc n => fun m => if m = n then g n (acc n) else acc m) f

/-- The stimulus argument `u` of `train`/`evaluate`: either a Python `int`
(the default `0`, but any integer; `isinstance(u, int)` only looks at the
type) or a numpy array. -/
inductive Stim where
  | intc : Int → Stim
  | arr : Tensor3 → Stim

/-- Error message of PyTorch `OneCycleLR.get_lr` when stepped past
`total_steps`. -/
def overstepMsg : String := "Tried to step more times than total_steps"

/-- Error message of the PyTorch `OneCycleLR` constructor for a
non-positive `total_steps`. -/
def totalStepsMsg : String := "Expected positive integer total_steps"

/-- Modelled from PyTorch `torch.optim.lr_scheduler.OneCycleLR`: the
observable step-count state.  After construction `last_epoch = 0`; each
`step()` increments it and raises `ValueError` once the count exceeds
`total_steps`.  (The learning-rate values themselves are float cosine
schedules, irrelevant to every claim, and are not modelled.) -/
structure Sched where
  total_steps : Nat
  last_epoch : Nat
deriving DecidableEq

/-- One `scheduler.step()` call. -/
def Sched.step (s : Sched) : Except String Sched :=
  if s.last_epoch + 1 > s.total_steps then .error overstepMsg
  else .ok ⟨s.total_steps, s.last_epoch + 1⟩

/-- The `OneCycleLR(...)` constructor (validates `total_steps > 0`). -/
def mkOneCycle (total_steps : Nat) : Except String Sched :=
  if total_steps = 0 then .error totalStepsMsg else .ok ⟨total_steps, 0⟩

/-- Ghost record of one invocation of the forward model
`self.model(external, X, hE)`: the three arguments as passed.  Used only
to state which data reaches the model; never read by the embedded code. -/
structure Call where
  ext : Tensor3
  Xin : Mat
  hEin : Mat
deriving DecidableEq

/-- Everything `Model_fitting.train`/`evaluate` consume from their
collaborators (the model object, the cost object, numpy/sklearn), with
one field per operation at exactly the source's call sites.  `P` is the
abstract type of the model's fitted-parameter state; `optStep` bundles
`loss.backward()` plus the two Adam `step()` calls (their numeric effect
on `P` given the window's inputs), since no claim concerns the numeric
update rule. -/
structure Ctx (P : Type) where
  node_size : Nat
  output_size : Nat
  steps_per_TR : Nat
  TRs_per_window : Nat
  state_names : List String
  output_names : List String
  track_params : List String
  state_dict_keys : List String
  use_fit_gains : Bool
  use_fit_lfm : Bool
  createIC : Nat → Mat
  createDelayIC : Nat → Mat
  forward : Tensor3 → Mat → Mat → (String → Mat) × Mat
  value : P → String → List Scalar
  scInit : List Scalar
  scFitted : P → List Scalar
  lmFlat : P → List Scalar
  cost : Mat → Mat → P → (String → Mat) → Scalar
  optStep : P → Tensor3 → Mat → Mat → Mat → P
  corrcoef : Mat → Mat
  corr01 : List Scalar → List Scalar → Scalar

/-- `exclude_param` as built at the top of `train`. -/
def excludeParam {P : Type} (c : Ctx P) : List String :=
  (if c.use_fit_gains then ["gains_con"] else []) ++
    (if c.use_fit_lfm then ["lm"] else [])

/-- The keys recorded into `fit_param`: `track_params` when truthy,
otherwise the state-dict keys minus `exclude_param` (the source's
`if(self.model.track_params)` branch split). -/
def trackedKeys {P : Type} (c : Ctx P) : List String :=
  if c.track_params ≠ [] then c.track_params
  else c.state_dict_keys.filter (fun k => ¬ (excludeParam c).contains k)

/-- The initial `fit_param` dict: one singleton history per tracked key. -/
def initFitParam {P : Type} (c : Ctx P) (p : P) : String → List (List Scalar) :=
  updFold (trackedKeys c) (fun n _ => [c.value p n]) (fun _ => [])

/-- The per-window `fit_param` appends (lines 192-199 of the source). -/
def appendFitParam {P : Type} (c : Ctx P) (p : P)
    (fp : String → List (List Scalar)) : String → List (List Scalar) :=
  updFold (trackedKeys c) (fun n prev => prev ++ [c.value p n]) fp

/-- The per-window `windListDict[name].append(next_window[name])` loop. -/
def appendWind (names : List String) (nw : String → Mat)
    (wl : String → List Mat) : String → List Mat :=
  updFold names (fun n prev => prev ++ [nw n]) wl

/-- The mutable locals of `Model_fitting.train` that survive across loop
iterations, plus the ghost `calls` trace of forward-model invocations. -/
structure TSt (P : Type) where
  p : P
  X : Mat
  hE : Mat
  external : Tensor3
  windList : String → List Mat
  loss_his : List Scalar
  lossCur : Scalar
  fit_param : String → List (List Scalar)
  fit_sc : List (List Scalar)
  fit_lm : List (List Scalar)
  hsched : Option Sched
  msched : Option Sched
  lastWind : String → Mat
  calls : List Call

/-- The two scheduler `step()` calls of one window (hyperparameter
scheduler first, as in the source); skipped when `lr_scheduler` was
false (then both options are `none`). -/
def schedStep2 : Option Sched → Option Sched →
    Except String (Option Sched × Option Sched)
  | some hs, some ms =>
    match hs.step with
    | .error e => .error e
    | .ok hs' =>
      match ms.step with
      | .error e => .error e
      | .ok ms' => .ok (some hs', some ms')
  | h, m => .ok (h, m)

/-- The pure effect of one iteration of LOOP 3/4 (one window) on the
training state, given the already-stepped schedulers.  Mirrors source
lines 145-209: build `external` (reassigned only when `u` is not an
`int`), call the model, compute the loss, buffer the window, append the
loss, update parameters, append parameter histories, and hand the
detached `current_state`/`hE_new` to the next window. -/
def windowCore {P : Type} (c : Ctx P) (u : Stim) (rec : List Mat)
    (st : TSt P) (win_idx : Nat) (hs ms : Option Sched) : TSt P :=
  let external :=
    match u with
    | .intc _ => st.external
    | .arr t => slice3 t (win_idx * c.TRs_per_window)
        ((win_idx + 1) * c.TRs_per_window)
  let fwd := c.forward external st.X st.hE
  let next_window := fwd.1
  let hE_new := fwd.2
  let ts_window := rec.getD win_idx []
  let sim := next_window (c.output_names.headD "")
  let loss := c.cost sim ts_window st.p next_window
  let p' := c.optStep st.p external st.X st.hE ts_window
  { p := p'
    X := next_window "current_state"
    hE := hE_new
    external := external
    windList := appendWind (c.state_names ++ c.output_names) next_window st.windList
    loss_his := st.loss_his ++ [loss]
    lossCur := loss
    fit_param := appendFitParam c p' st.fit_param
    fit_sc := if c.use_fit_gains then st.fit_sc ++ [c.scFitted p'] else st.fit_sc
    fit_lm := if c.use_fit_lfm then st.fit_lm ++ [c.lmFlat p'] else st.fit_lm
    hsched := hs
    msched := ms
    lastWind := st.lastWind
    calls := st.calls ++ [⟨external, st.X, st.hE⟩] }

/-- One window of LOOP 3/4 including the fallible scheduler steps (a
`ValueError` from `scheduler.step()` propagates and aborts training). -/
def windowStep {P : Type} (c : Ctx P) (u : Stim) (rec : List Mat)
    (st : TSt P) (win_idx : Nat) : Except String (TSt P) :=
  (schedStep2 st.hsched st.msched).map
    (fun s => windowCore c u rec st win_idx s.1 s.2)

/-- LOOP 3/4: `for win_idx in range(self.num_windows)`. -/
def runWindows {P : Type} (c : Ctx P) (u : Stim) (rec : List Mat)
    (idxs : List Nat) (st : TSt P) : Except String (TSt P) :=
  match idxs with
  | [] => .ok st
  | i :: is =>
    match windowStep c u rec st i with
    | .error e => .error e
    | .ok st1 => runWindows c u rec is st1

/-- The per-recording FC diagnostic (source lines 211-223): correlation
matrix of the empirical recording untrimmed, correlation matrix of the
simulated trajectory with its first 10 time steps dropped, then
`np.corrcoef(fc_sim[mask_e], fc[mask_e])[0, 1]`. -/
def recordingDiag {P : Type} (c : Ctx P) (rec : List Mat) (ts_sim : Mat) : Scalar :=
  let ts_emp := hcatAll rec
  let fc := c.corrcoef ts_emp
  let fc_sim := c.corrcoef (ts_sim.map (fun row => row.drop 10))
  c.corr01 (maskVals c.output_size fc_sim) (maskVals c.output_size fc)

/-- One iteration of LOOP 2/4 (one recording): reset the window buffer
and the zero `external`, run all windows, concatenate the buffered
windows, compute the diagnostic, and report whether the early-stop
condition `i_epoch > epoch_min and FC_cor > r_lb` fired. -/
def runRecording {P : Type} (c : Ctx P) (u : Stim) (numWindows : Nat)
    (epoch_min : Nat) (r_lb : Scalar) (i_epoch : Nat) (rec : List Mat)
    (st : TSt P) : Except String (TSt P × Bool) :=
  match runWindows c u rec (List.range numWindows)
      { st with windList := fun _ => []
                external := zeros3 c.node_size c.steps_per_TR c.TRs_per_window } with
  | .error e => .error e
  | .ok st2 =>
      .ok ({ st2 with lastWind := fun n => hcatAll (st2.windList n) },
           decide (i_epoch > epoch_min ∧
             recordingDiag c rec (hcatAll (st2.windList (c.output_names.headD "")))
               > r_lb))

/-- LOOP 2/4: `for windowedTS in self.trainData`, with the `break` of
source line 233 leaving only this loop. -/
def runRecordings {P : Type} (c : Ctx P) (u : Stim) (numWindows : Nat)
    (epoch_min : Nat) (r_lb : Scalar) (i_epoch : Nat)
    (recs : List (List Mat)) (st : TSt P) : Except String (TSt P) :=
  match recs with
  | [] => .ok st
  | r :: rs =>
    match runRecording c u numWindows epoch_min r_lb i_epoch r st with
    | .error e => .error e
    | .ok res =>
      if res.2 then .ok res.1
      else runRecordings c u numWindows epoch_min r_lb i_epoch rs res.1

/-- LOOP 1/4: `for i_epoch in range(self.num_epoches)`. -/
def runEpochs {P : Type} (c : Ctx P) (u : Stim) (numWindows : Nat)
    (epoch_min : Nat) (r_lb : Scalar) (recs : List (List Mat))
    (es : List Nat) (st : TSt P) : Except String (TSt P) :=
  match es with
  | [] => .ok st
  | e :: rest =>
    match runRecordings c u numWindows epoch_min r_lb e recs st with
    | .error err => .error err
    | .ok st' => runEpochs c u numWindows epoch_min r_lb recs rest st'

/-- The scheduler setup of `train` (source lines 86-91): when
`lr_scheduler` is true, construct the two `OneCycleLR` schedulers with
`total_steps = num_windows * num_epoches`. -/
def mkScheds (num_windows num_epoches : Nat) (lr_scheduler : Bool) :
    Except String (Option Sched × Option Sched) :=
  if lr_scheduler then
    match mkOneCycle (num_windows * num_epoches) with
    | .error e => .error e
    | .ok h =>
      match mkOneCycle (num_windows * num_epoches) with
      | .error e => .error e
      | .ok m => .ok (some h, some m)
  else .ok (none, none)

/-- The loop state at the start of LOOP 1/4: initial conditions from
`createIC(ver=0)` / `createDelayIC(ver=0)` (computed once per `train`
call, source lines 93-96), the initial parameter-history snapshots
(lines 108-122) and empty loss/trace buffers. -/
def initState {P : Type} (c : Ctx P) (p0 : P)
    (scheds : Option Sched × Option Sched) : TSt P :=
  { p := p0
    X := c.createIC 0
    hE := c.createDelayIC 0
    external := zeros3 c.node_size c.steps_per_TR c.TRs_per_window
    windList := fun _ => []
    loss_his := []
    lossCur := 0
    fit_param := initFitParam c p0
    fit_sc := if c.use_fit_gains then [c.scInit] else []
    fit_lm := if c.use_fit_lfm then [c.lmFlat p0] else []
    hsched := scheds.1
    msched := scheds.2
    lastWind := fun _ => []
    calls := [] }

/-- `Model_fitting.train`.  `trainData` is the list of recordings, each a
list of `(channels x TRs_per_window)` windows; `num_windows` is
`trainData[0].shape[0]` as in `__init__`.  The learning rates only feed
the abstracted optimizers and are omitted; `lr_scheduler` selects whether
the two `OneCycleLR` schedulers (with `total_steps = num_windows *
num_epoches`) exist.  The result is the final loop state, or the first
propagated error. -/
def train {P : Type} (c : Ctx P) (p0 : P) (trainData : List (List Mat))
    (num_epoches : Nat) (u : Stim) (epoch_min : Nat) (r_lb : Scalar)
    (lr_scheduler : Bool) : Except String (TSt P) :=
  match mkScheds (trainData.headD []).length num_epoches lr_scheduler with
  | .error e => .error e
  | .ok scheds =>
    runEpochs c u (trainData.headD []).length epoch_min r_lb trainData
      (List.range num_epoches) (initState c p0 scheds)

/-- The constant `transient_num = 10` defined at the top of
`Model_fitting.evaluate`. -/
def transient_num : Nat := 10

/-- The mutable locals of the `evaluate` window loop, plus the ghost
`calls` trace. -/
structure ESt where
  X : Mat
  hE : Mat
  windList : String → List Mat
  calls : List Call

/-- The combined external-input array `u_hat` of `evaluate`:
`np.zeros((node_size, steps_per_TR, (base_window_num + num_windows) *
TRs_per_window))` with `u_hat[:, :, base_window_num*TRs_per_window:] =
u` (an `int` stimulus broadcasts; an array is copied entrywise). -/
def buildUhat {P : Type} (c : Ctx P) (baseN numW : Nat) (u : Stim) : Tensor3 :=
  (List.range c.node_size).map fun i =>
    (List.range c.steps_per_TR).map fun j =>
      (List.range (baseN * c.TRs_per_window + numW * c.TRs_per_window)).map
        fun k =>
          if k < baseN * c.TRs_per_window then 0
          else
            match u with
            | .intc z => (z : Scalar)
            | .arr t => get3 t i j (k - baseN * c.TRs_per_window)

/-- One iteration of the `evaluate` window loop (source lines 285-303):
slice `u_hat`, call the model, buffer the outputs only when
`win_idx > base_window_num - 1` (a Python int comparison, hence over ℤ),
and hand over the detached state. -/
def evalStep {P : Type} (c : Ctx P) (u_hat : Tensor3) (baseN : Nat)
    (st : ESt) (win_idx : Nat) : ESt :=
  let external := slice3 u_hat (win_idx * c.TRs_per_window)
      ((win_idx + 1) * c.TRs_per_window)
  let fwd := c.forward external st.X st.hE
  let next_window := fwd.1
  let hE_new := fwd.2
  let windList :=
    if (win_idx : ℤ) > (baseN : ℤ) - 1 then
      appendWind (c.state_names ++ c.output_names) next_window st.windList
    else st.windList
  { X := next_window "current_state"
    hE := hE_new
    windList := windList
    calls := st.calls ++ [⟨external, st.X, st.hE⟩] }

/-- What `Model_fitting.evaluate` leaves behind: the buffered window
lists, their per-name concatenations (which populate `self.lastRec`),
the printed FC diagnostic, the final detached state, and the ghost call
trace. -/
structure EvalResult where
  windListRaw : String → List Mat
  windCat : String → Mat
  diag : Scalar
  X : Mat
  hE : Mat
  calls : List Call

/-- `Model_fitting.evaluate`.  Runs `num_windows + base_window_num`
windows from the `ver = 1` initial conditions, buffering only the
post-burn-in windows, then computes the FC diagnostic against
`trainData[0]` with the simulated signal trimmed by `transient_num`. -/
def evaluate {P : Type} (c : Ctx P) (trainData : List (List Mat))
    (base_window_num : Nat) (u : Stim) : EvalResult :=
  let num_windows := (trainData.headD []).length
  let u_hat := buildUhat c base_window_num num_windows u
  let st0 : ESt :=
    { X := c.createIC 1, hE := c.createDelayIC 1
      windList := fun _ => [], calls := [] }
  let st := (List.range (num_windows + base_window_num)).foldl
      (evalStep c u_hat base_window_num) st0
  let windCat : String → Mat := fun n => hcatAll (st.windList n)
  let windowedTS := trainData.headD []
  let ts_emp := hcatAll windowedTS
  let fc := c.corrcoef ts_emp
  let ts_sim := windCat (c.output_names.headD "")
  let fc_sim := c.corrcoef (ts_sim.map (fun row => row.drop transient_num))
  { windListRaw := st.windList
    windCat := windCat
    diag := c.corr01 (maskVals c.output_size fc_sim) (maskVals c.output_size fc)
    X := st.X
    hE := st.hE
    calls := st.calls }

/-! ### `whobpyt/functions/arg_type_check.py` -/

/-- The runtime types relevant to `method_arg_type_check`: the abstract
Python types of values that can appear in the checker's own frame, plus
the annotation types a checked signature may carry. -/
inductive PyType where
  | tInt | tStr | tFloat | tFunction | tSignature | tDict | tType
  | tOther : String → PyType
deriving DecidableEq

/-- The `__name__` of a type object. -/
def typeName : PyType → String
  | .tInt => "int"
  | .tStr => "str"
  | .tFloat => "float"
  | .tFunction => "function"
  | .tSignature => "Signature"
  | .tDict => "dict"
  | .tType => "type"
  | .tOther s => s

/-- The names bound in `locals()` of `method_arg_type_check` itself at
the point of the `arg_name in locals()` test, with the runtime type of
each bound value: the sole parameter `method_obj`, the two locals
`args_signature` and `expected_types`, and the loop variables `arg_name`
(a `str`) and `arg_type` (a `type`).  The caller's argument values are
never among them — `locals()` reads the checker's own frame. -/
def checkerLocalType : String → Option PyType
  | "method_obj" => some .tFunction
  | "args_signature" => some .tSignature
  | "expected_types" => some .tDict
  | "arg_name" => some .tStr
  | "arg_type" => some .tType
  | _ => none

/-- `method_arg_type_check(method_obj)`: iterate over the checked
function's signature `(parameter name, annotated type)` in order; skip
`self`; for a name present in the checker's own `locals()`, compare that
local value's runtime type with the annotation and raise the descriptive
`ValueError` on mismatch.  Note the function receives only the method
object: the arguments of the call being "checked" are not in scope. -/
def method_arg_type_check : List (String × PyType) → Except String Unit
  | [] => .ok ()
  | (arg_name, arg_type) :: rest =>
    if arg_name ≠ "self" then
      match checkerLocalType arg_name with
      | some actual =>
          if actual ≠ arg_type then
            .error (arg_name ++ " should be of type " ++ typeName arg_type ++
              ", but got type " ++ typeName actual ++ " instead.")
          else method_arg_type_check rest
      | none => method_arg_type_check rest
    else method_arg_type_check rest

/-! ### Derived notions used by the theorems -/

/-- The stimulus value a window read at position `(i, j, k)` sees: an
`int` stimulus broadcasts its value, an array is read entrywise. -/
def stimVal : Stim → Nat → Nat → Nat → Scalar
  | .intc z, _, _, _ => (z : Scalar)
  | .arr t, i, j, k => get3 t i j k

/-- Checks that a trace of forward-model calls is the unique chain
determined by the starting state `(X0, hE0)`: the first call received
exactly `(X0, hE0)`, every later call received the `current_state` and
delay history produced by the call before it, and `(X', hE')` is the
state left after the last call.  When this holds, the state was never
re-created from `createIC`/`createDelayIC` mid-run. -/
def chainedB {P : Type} (c : Ctx P) : Mat → Mat → List Call → Mat → Mat → Bool
  | X, hE, [], X', hE' => decide (X' = X ∧ hE' = hE)
  | X, hE, e :: es, X', hE' =>
    decide (e.Xin = X ∧ e.hEin = hE) &&
      chainedB c ((c.forward e.ext X hE).1 "current_state")
        (c.forward e.ext X hE).2 es X' hE'

/-- The history/trace lengths of `st'` exceed those of `st` by exactly
`d` windows (`d` appended losses, `d` forward calls and `d` snapshots
per tracked parameter). -/
def Grows {P : Type} (c : Ctx P) (st st' : TSt P) (d : Nat) : Prop :=
  st'.loss_his.length = st.loss_his.length + d ∧
  st'.calls.length = st.calls.length + d ∧
  ((trackedKeys c).Nodup → ∀ nm ∈ trackedKeys c,
    (st'.fit_param nm).length = (st.fit_param nm).length + d)

/-- State with no learning-rate schedulers (`lr_scheduler = False`). -/
def NoSched {P : Type} (st : TSt P) : Prop :=
  st.hsched = none ∧ st.msched = none

/-- State whose two schedulers both exist with capacity `T` and have
been stepped `k` times. -/
def SchedAt {P : Type} (st : TSt P) (T k : Nat) : Prop :=
  st.hsched = some ⟨T, k⟩ ∧ st.msched = some ⟨T, k⟩

/-- Every forward call of the trace received the all-zero external
input of the given shape. -/
def AllZeroExt (n s t : Nat) (calls : List Call) : Prop :=
  ∀ cl ∈ calls, cl.ext = zeros3 n s t

/-! ### Concrete instantiation used by counterexamples and witnesses -/

/-- A concrete 1-node forward model: `current_state` increments every
entry of the incoming state by one (so the state counts how many windows
were simulated), every named output is the constant 1x1 window, and the
delay history is returned unchanged. -/
def toyFwd : Tensor3 → Mat → Mat → (String → Mat) × Mat :=
  fun _ X hE =>
    (fun n => if n = "current_state"
              then X.map (fun row => row.map (fun v => v + 1))
              else [[1]],
     hE)

/-- A concrete context with one node, one output channel, 1-TR windows,
one tracked parameter `"a"`, and an FC correlation diagnostic that is
constantly 1 (so the early-stop threshold comparison is decided purely
by the loop indices). -/
def toyCtx : Ctx Unit :=
  { node_size := 1
    output_size := 1
    steps_per_TR := 1
    TRs_per_window := 1
    state_names := ["E"]
    output_names := ["bold"]
    track_params := ["a"]
    state_dict_keys := []
    use_fit_gains := false
    use_fit_lfm := false
    createIC := fun _ => [[0]]
    createDelayIC := fun _ => [[0]]
    forward := toyFwd
    value := fun _ _ => [0]
    scInit := []
    scFitted := fun _ => []
    lmFlat := fun _ => []
    cost := fun _ _ _ _ => 0
    optStep := fun p _ _ _ _ => p
    corrcoef := fun m => m
    corr01 := fun _ _ => 1 }

/-- A 1x1 zero window. -/
def w0 : Mat := [[0]]

/-- A training set of two recordings with one 1x1 window each. -/
def data2 : List (List Mat) := [[w0], [w0]]

/-! ### Helper lemmas: dict updates -/

theorem updFold_cons {α : Type} (k : String) (ks : List String)
    (g : String → α → α) (f : String → α) :
    updFold (k :: ks) g f =
      updFold ks g (fun m => if m = k then g k (f k) else f m) := rfl

theorem updFold_not_mem {α : Type} {keys : List String} {name : String}
    (g : String → α → α) (f : String → α) (h : name ∉ keys) :
    updFold keys g f name = f name := by
  induction keys generalizing f with
  | nil => rfl
  | cons k ks ih =>
    simp only [List.mem_cons, not_or] at h
    rw [updFold_cons, ih _ h.2]
    simp [h.1]

theorem updFold_mem {α : Type} {keys : List String} {name : String}
    (g : String → α → α) (f : String → α) (hnd : keys.Nodup) (h : name ∈ keys) :
    updFold keys g f name = g name (f name) := by
  induction keys generalizing f with
  | nil => cases h
  | cons k ks ih =>
    rw [List.nodup_cons] at hnd
    rw [updFold_cons]
    rcases List.mem_cons.mp h with he | hm
    · subst he
      rw [updFold_not_mem _ _ hnd.1]
      simp
    · have hne : name ≠ k := fun e => hnd.1 (e ▸ hm)
      rw [ih _ hnd.2 hm]
      simp [hne]

/-! ### Helper lemmas: one window -/

theorem windowStep_none {P : Type} (c : Ctx P) (u : Stim) (rec : List Mat)
    (st : TSt P) (i : Nat) (h1 : st.hsched = none) (h2 : st.msched = none) :
    windowStep c u rec st i = .ok (windowCore c u rec st i none none) := by
  simp [windowStep, h1, h2, schedStep2, Except.map]

theorem windowStep_ok_elim {P : Type} {c : Ctx P} {u : Stim} {rec : List Mat}
    {st st' : TSt P} {i : Nat} (h : windowStep c u rec st i = .ok st') :
    ∃ s, schedStep2 st.hsched st.msched = .ok s ∧
      st' = windowCore c u rec st i s.1 s.2 := by
  unfold windowStep at h
  cases hs : schedStep2 st.hsched st.msched with
  | error e => rw [hs] at h; cases h
  | ok s =>
    rw [hs] at h
    injection h with h
    exact ⟨s, rfl, h.symm⟩

theorem windowCore_loss {P : Type} (c : Ctx P) (u : Stim) (rec : List Mat)
    (st : TSt P) (i : Nat) (hs ms : Option Sched) :
    ∃ l, (windowCore c u rec st i hs ms).loss_his = st.loss_his ++ [l] :=
  ⟨_, rfl⟩

theorem windowCore_calls {P : Type} (c : Ctx P) (u : Stim) (rec : List Mat)
    (st : TSt P) (i : Nat) (hs ms : Option Sched) :
    ∃ cl, (windowCore c u rec st i hs ms).calls = st.calls ++ [cl] :=
  ⟨_, rfl⟩

theorem windowCore_fit_param {P : Type} (c : Ctx P) (u : Stim) (rec : List Mat)
    (st : TSt P) (i : Nat) (hs ms : Option Sched)
    (hnd : (trackedKeys c).Nodup) {nm : String} (hm : nm ∈ trackedKeys c) :
    ∃ v, (windowCore c u rec st i hs ms).fit_param nm = st.fit_param nm ++ [v] := by
  have h : (windowCore c u rec st i hs ms).fit_param nm =
      st.fit_param nm ++ [c.value ((windowCore c u rec st i hs ms).p) nm] := by
    show appendFitParam c _ st.fit_param nm = _
    rw [appendFitParam, updFold_mem _ _ hnd hm]
    rfl
  exact ⟨_, h⟩

theorem windowCore_grows {P : Type} (c : Ctx P) (u : Stim) (rec : List Mat)
    (st : TSt P) (i : Nat) (hs ms : Option Sched) :
    Grows c st (windowCore c u rec st i hs ms) 1 := by
  refine ⟨?_, ?_, fun hnd nm hm => ?_⟩
  · obtain ⟨l, hl⟩ := windowCore_loss c u rec st i hs ms
    simp [hl]
  · obtain ⟨cl, hc⟩ := windowCore_calls c u rec st i hs ms
    simp [hc]
  · obtain ⟨v, hv⟩ := windowCore_fit_param c u rec st i hs ms hnd hm
    simp [hv]

/-! ### Helper lemmas: Grows bookkeeping -/

theorem grows_refl {P : Type} (c : Ctx P) (st : TSt P) : Grows c st st 0 :=
  ⟨rfl, rfl, fun _ _ _ => rfl⟩

theorem grows_trans {P : Type} {c : Ctx P} {s1 s2 s3 : TSt P} {d e : Nat}
    (h1 : Grows c s1 s2 d) (h2 : Grows c s2 s3 e) : Grows c s1 s3 (d + e) := by
  obtain ⟨a1, b1, f1⟩ := h1
  obtain ⟨a2, b2, f2⟩ := h2
  refine ⟨by omega, by omega, fun hnd nm hm => ?_⟩
  have := f1 hnd nm hm
  have := f2 hnd nm hm
  omega

theorem runWindows_grows {P : Type} {c : Ctx P} {u : Stim} {rec : List Mat}
    {idxs : List Nat} {st st' : TSt P}
    (h : runWindows c u rec idxs st = .ok st') :
    Grows c st st' idxs.length := by
  induction idxs generalizing st with
  | nil =>
    rw [runWindows] at h
    injection h with h
    exact h ▸ grows_refl c st
  | cons i is ih =>
    rw [runWindows] at h
    cases hw : windowStep c u rec st i with
    | error e => rw [hw] at h; cases h
    | ok st1 =>
      rw [hw] at h
      obtain ⟨s, _, hcore⟩ := windowStep_ok_elim hw
      have h1 : Grows c st st1 1 := hcore ▸ windowCore_grows c u rec st i s.1 s.2
      have h2 := ih h
      simpa [Nat.add_comm] using grows_trans h1 h2

theorem runRecording_ok_elim {P : Type} {c : Ctx P} {u : Stim} {W em : Nat}
    {rlb : Scalar} {e : Nat} {rec : List Mat} {st : TSt P} {pr : TSt P × Bool}
    (h : runRecording c u W em rlb e rec st = .ok pr) :
    ∃ st2, runWindows c u rec (List.range W)
        { st with windList := fun _ => []
                  external := zeros3 c.node_size c.steps_per_TR c.TRs_per_window }
          = .ok st2 ∧
      pr = ({ st2 with lastWind := fun n => hcatAll (st2.windList n) },
            decide (e > em ∧
              recordingDiag c rec (hcatAll (st2.windList (c.output_names.headD "")))
                > rlb)) := by
  unfold runRecording at h
  cases hw : runWindows c u rec (List.range W)
      { st with windList := fun _ => []
                external := zeros3 c.node_size c.steps_per_TR c.TRs_per_window } with
  | error e' => rw [hw] at h; cases h
  | ok st2 =>
    rw [hw] at h
    injection h with h
    exact ⟨st2, rfl, h.symm⟩

theorem runRecording_grows {P : Type} {c : Ctx P} {u : Stim} {W em : Nat}
    {rlb : Scalar} {e : Nat} {rec : List Mat} {st : TSt P} {pr : TSt P × Bool}
    (h : runRecording c u W em rlb e rec st = .ok pr) :
    Grows c st pr.1 W := by
  obtain ⟨st2, hw, hpr⟩ := runRecording_ok_elim h
  have g1 := runWindows_grows hw
  rw [List.length_range] at g1
  rw [hpr]
  exact g1

theorem runRecordings_grows_ex {P : Type} {c : Ctx P} {u : Stim} {W em : Nat}
    {rlb : Scalar} {e : Nat} {recs : List (List Mat)} {st st' : TSt P}
    (h : runRecordings c u W em rlb e recs st = .ok st') :
    ∃ d, Grows c st st' d := by
  induction recs generalizing st with
  | nil =>
    rw [runRecordings] at h
    injection h with h
    exact ⟨0, by rw [← h]; exact grows_refl c st⟩
  | cons r rs ih =>
    rw [runRecordings] at h
    cases hr : runRecording c u W em rlb e r st with
    | error err => rw [hr] at h; cases h
    | ok pr =>
      rw [hr] at h
      dsimp only at h
      have g1 : Grows c st pr.1 W := runRecording_grows hr
      cases hb : pr.2 with
      | true =>
        simp [hb] at h
        exact ⟨W, by rw [← h]; exact g1⟩
      | false =>
        simp [hb] at h
        obtain ⟨d, g2⟩ := ih h
        exact ⟨W + d, grows_trans g1 g2⟩

theorem runRecordings_grows_nobreak {P : Type} {c : Ctx P} {u : Stim}
    {W em : Nat} {rlb : Scalar} {e : Nat} {recs : List (List Mat)}
    {st st' : TSt P} (hem : ¬ e > em)
    (h : runRecordings c u W em rlb e recs st = .ok st') :
    Grows c st st' (recs.length * W) := by
  induction recs generalizing st with
  | nil =>
    rw [runRecordings] at h
    injection h with h
    simpa using (by rw [← h]; exact grows_refl c st : Grows c st st' 0)
  | cons r rs ih =>
    rw [runRecordings] at h
    cases hr : runRecording c u W em rlb e r st with
    | error err => rw [hr] at h; cases h
    | ok pr =>
      rw [hr] at h
      dsimp only at h
      obtain ⟨st2, hw, hpr⟩ := runRecording_ok_elim hr
      have hb : pr.2 = false := by
        rw [hpr]
        simp [hem]
      simp [hb] at h
      have g2 := ih h
      have g3 := grows_trans (runRecording_grows hr) g2
      have hlen : W + rs.length * W = (r :: rs).length * W := by
        simp [List.length_cons, Nat.succ_mul, Nat.add_comm]
      rw [hlen] at g3
      exact g3

theorem runEpochs_grows_ex {P : Type} {c : Ctx P} {u : Stim} {W em : Nat}
    {rlb : Scalar} {recs : List (List Mat)} {es : List Nat} {st st' : TSt P}
    (h : runEpochs c u W em rlb recs es st = .ok st') :
    ∃ d, Grows c st st' d := by
  induction es generalizing st with
  | nil =>
    rw [runEpochs] at h
    injection h with h
    exact ⟨0, by rw [← h]; exact grows_refl c st⟩
  | cons e rest ih =>
    rw [runEpochs] at h
    cases hr : runRecordings c u W em rlb e recs st with
    | error err => rw [hr] at h; cases h
    | ok st1 =>
      rw [hr] at h
      obtain ⟨d1, g1⟩ := runRecordings_grows_ex hr
      obtain ⟨d2, g2⟩ := ih h
      exact ⟨d1 + d2, grows_trans g1 g2⟩

theorem runEpochs_grows_nobreak {P : Type} {c : Ctx P} {u : Stim} {W em : Nat}
    {rlb : Scalar} {recs : List (List Mat)} {es : List Nat} {st st' : TSt P}
    (hall : ∀ e ∈ es, ¬ e > em)
    (h : runEpochs c u W em rlb recs es st = .ok st') :
    Grows c st st' (es.length * (recs.length * W)) := by
  induction es generalizing st with
  | nil =>
    rw [runEpochs] at h
    injection h with h
    simpa using (by rw [← h]; exact grows_refl c st : Grows c st st' 0)
  | cons e rest ih =>
    rw [runEpochs] at h
    cases hr : runRecordings c u W em rlb e recs st with
    | error err => rw [hr] at h; cases h
    | ok st1 =>
      rw [hr] at h
      have g1 := runRecordings_grows_nobreak (hall e (List.mem_cons_self e rest)) hr
      have g2 := ih (fun x hx => hall x (List.mem_cons_of_mem e hx)) h
      have g3 := grows_trans g1 g2
      have hlen : recs.length * W + rest.length * (recs.length * W)
          = (e :: rest).length * (recs.length * W) := by
        simp [List.length_cons, Nat.succ_mul, Nat.add_comm]
      rw [hlen] at g3
      exact g3

theorem train_ok_elim {P : Type} {c : Ctx P} {p0 : P} {data : List (List Mat)}
    {E : Nat} {u : Stim} {em : Nat} {rlb : Scalar} {s : Bool} {res : TSt P}
    (h : train c p0 data E u em rlb s = .ok res) :
    ∃ scheds, mkScheds (data.headD []).length E s = .ok scheds ∧
      runEpochs c u (data.headD []).length em rlb data (List.range E)
        (initState c p0 scheds) = .ok res := by
  unfold train at h
  cases hs : mkScheds (data.headD []).length E s with
  | error e => rw [hs] at h; cases h
  | ok scheds => rw [hs] at h; exact ⟨scheds, rfl, h⟩


/-! ### Helper lemmas: totality without schedulers -/

theorem runWindows_none_total {P : Type} (c : Ctx P) (u : Stim)
    (rec : List Mat) (idxs : List Nat) (st : TSt P) (hn : NoSched st) :
    ∃ st', runWindows c u rec idxs st = .ok st' ∧ NoSched st' := by
  induction idxs generalizing st with
  | nil => exact ⟨st, rfl, hn⟩
  | cons i is ih =>
    have hw := windowStep_none c u rec st i hn.1 hn.2
    have hn1 : NoSched (windowCore c u rec st i none none) := ⟨rfl, rfl⟩
    obtain ⟨st', hrun, hn'⟩ := ih (windowCore c u rec st i none none) hn1
    refine ⟨st', ?_, hn'⟩
    rw [runWindows, hw]
    exact hrun

theorem runRecording_none_total {P : Type} (c : Ctx P) (u : Stim)
    (W em : Nat) (rlb : Scalar) (e : Nat) (rec : List Mat) (st : TSt P)
    (hn : NoSched st) :
    ∃ pr, runRecording c u W em rlb e rec st = .ok pr ∧ NoSched pr.1 := by
  obtain ⟨st2, hrun, hn2⟩ := runWindows_none_total c u rec (List.range W)
    { st with windList := fun _ => []
              external := zeros3 c.node_size c.steps_per_TR c.TRs_per_window } hn
  refine ⟨({ st2 with lastWind := fun n => hcatAll (st2.windList n) },
           decide (e > em ∧
             recordingDiag c rec (hcatAll (st2.windList (c.output_names.headD "")))
               > rlb)), ?_, ?_⟩
  · unfold runRecording
    rw [hrun]
  · exact hn2

theorem runRecordings_none_total {P : Type} (c : Ctx P) (u : Stim)
    (W em : Nat) (rlb : Scalar) (e : Nat) (recs : List (List Mat))
    (st : TSt P) (hn : NoSched st) :
    ∃ st', runRecordings c u W em rlb e recs st = .ok st' ∧ NoSched st' := by
  induction recs generalizing st with
  | nil => exact ⟨st, rfl, hn⟩
  | cons r rs ih =>
    obtain ⟨pr, hr, hn1⟩ := runRecording_none_total c u W em rlb e r st hn
    cases hb : pr.2 with
    | true =>
      refine ⟨pr.1, ?_, hn1⟩
      rw [runRecordings, hr]
      dsimp only
      rw [hb]
      simp
    | false =>
      obtain ⟨st', hrun, hn'⟩ := ih pr.1 hn1
      refine ⟨st', ?_, hn'⟩
      rw [runRecordings, hr]
      dsimp only
      rw [hb]
      simpa using hrun

theorem runEpochs_none_total {P : Type} (c : Ctx P) (u : Stim)
    (W em : Nat) (rlb : Scalar) (recs : List (List Mat)) (es : List Nat)
    (st : TSt P) (hn : NoSched st) :
    ∃ st', runEpochs c u W em rlb recs es st = .ok st' ∧ NoSched st' := by
  induction es generalizing st with
  | nil => exact ⟨st, rfl, hn⟩
  | cons e rest ih =>
    obtain ⟨st1, hr, hn1⟩ := runRecordings_none_total c u W em rlb e recs st hn
    obtain ⟨st', hrun, hn'⟩ := ih st1 hn1
    refine ⟨st', ?_, hn'⟩
    rw [runEpochs, hr]
    exact hrun

theorem train_false_total {P : Type} (c : Ctx P) (p0 : P)
    (data : List (List Mat)) (E : Nat) (u : Stim) (em : Nat) (rlb : Scalar) :
    ∃ res, train c p0 data E u em rlb false = .ok res := by
  obtain ⟨res, hrun, _⟩ := runEpochs_none_total c u (data.headD []).length em rlb
    data (List.range E) (initState c p0 (none, none)) ⟨rfl, rfl⟩
  exact ⟨res, hrun⟩

/-! ### Claim C5 -/

/-- C5: absent early stopping (here guaranteed by
`num_epoches ≤ epoch_min + 1`, which makes the strict early-stop test
`i_epoch > epoch_min` unsatisfiable), a completed `train` run leaves a
loss trace with exactly `num_epoches * num_recordings * num_windows`
entries — one appended per processed window, never truncated. -/
theorem C5_loss_trace_length {P : Type} (c : Ctx P) (p0 : P)
    (data : List (List Mat)) (E : Nat) (u : Stim) (em : Nat) (rlb : Scalar)
    (s : Bool) (res : TSt P) (hstop : E ≤ em + 1)
    (h : train c p0 data E u em rlb s = .ok res) :
    res.loss_his.length = E * (data.length * (data.headD []).length) := by
  obtain ⟨scheds, hmk, hrun⟩ := train_ok_elim h
  have hall : ∀ e ∈ List.range E, ¬ e > em := by
    intro e he
    have := List.mem_range.mp he
    omega
  have g := runEpochs_grows_nobreak hall hrun
  rw [List.length_range] at g
  have h0 : (initState c p0 scheds).loss_his.length = 0 := rfl
  have h1 := g.1
  rw [h0] at h1
  omega

/-- Witness for C5 on the concrete toy run: 2 epochs, 2 recordings of 1
window each, scheduler off, default `epoch_min = 10`, give 4 losses. -/
theorem C5_witness :
    (train toyCtx () data2 2 (.intc 0) 10 0 false).toOption.map
      (fun r => r.loss_his.length) = some 4 := by
  obtain ⟨res, htr⟩ := train_false_total toyCtx () data2 2 (.intc 0) 10 0
  rw [htr]
  have h := C5_loss_trace_length toyCtx () data2 2 (.intc 0) 10 0 false res
    (by omega) htr
  show some res.loss_his.length = some 4
  rw [h]
  rfl

/-! ### Claim C6 -/

/-- C6: after any completed `train` run (with or without early stopping),
each tracked parameter's history list has length equal to the number of
windows processed (the number of forward-model calls) plus one: the
initial snapshot plus one appended snapshot per window. -/
theorem C6_param_history_length {P : Type} (c : Ctx P) (p0 : P)
    (data : List (List Mat)) (E : Nat) (u : Stim) (em : Nat) (rlb : Scalar)
    (s : Bool) (res : TSt P) (nm : String)
    (hnd : (trackedKeys c).Nodup) (hm : nm ∈ trackedKeys c)
    (h : train c p0 data E u em rlb s = .ok res) :
    (res.fit_param nm).length = res.calls.length + 1 := by
  obtain ⟨scheds, hmk, hrun⟩ := train_ok_elim h
  obtain ⟨d, g⟩ := runEpochs_grows_ex hrun
  have h1 : (initState c p0 scheds).fit_param nm = [c.value p0 nm] := by
    show initFitParam c p0 nm = _
    rw [initFitParam, updFold_mem _ _ hnd hm]
  have h2 : (initState c p0 scheds).calls.length = 0 := rfl
  have h3 := g.2.1
  have h4 := g.2.2 hnd nm hm
  rw [h1] at h4
  simp only [List.length_singleton] at h4
  omega

/-- Witness for C6: on the toy run the tracked parameter "a" has one
more history entry than there were processed windows. -/
theorem C6_witness :
    (train toyCtx () data2 1 (.intc 0) 10 0 false).toOption.map
      (fun r => (r.fit_param "a").length - r.calls.length) = some 1 := by
  obtain ⟨res, htr⟩ := train_false_total toyCtx () data2 1 (.intc 0) 10 0
  rw [htr]
  have h := C6_param_history_length toyCtx () data2 1 (.intc 0) 10 0 false res "a"
    (by decide) (by decide) htr
  show some ((res.fit_param "a").length - res.calls.length) = some 1
  exact congrArg some (by omega)

/-! ### Helper lemmas: state chaining (for C1) -/

theorem chainedB_append {P : Type} {c : Ctx P} {X0 hE0 X hE : Mat}
    {tr : List Call} (h : chainedB c X0 hE0 tr X hE = true) (ext : Tensor3) :
    chainedB c X0 hE0 (tr ++ [⟨ext, X, hE⟩])
      ((c.forward ext X hE).1 "current_state") (c.forward ext X hE).2 = true := by
  induction tr generalizing X0 hE0 with
  | nil =>
    simp only [chainedB, decide_eq_true_eq] at h
    obtain ⟨h1, h2⟩ := h
    subst h1
    subst h2
    simp [chainedB]
  | cons e es ih =>
    simp only [List.cons_append, chainedB, Bool.and_eq_true, decide_eq_true_eq]
      at h ⊢
    exact ⟨h.1, ih h.2⟩

theorem windowCore_chain {P : Type} (c : Ctx P) (u : Stim) (rec : List Mat)
    (st : TSt P) (i : Nat) (hs ms : Option Sched) {X0 hE0 : Mat}
    (h : chainedB c X0 hE0 st.calls st.X st.hE = true) :
    chainedB c X0 hE0 (windowCore c u rec st i hs ms).calls
      (windowCore c u rec st i hs ms).X (windowCore c u rec st i hs ms).hE
      = true := by
  exact chainedB_append h _

theorem runWindows_chain {P : Type} {c : Ctx P} {u : Stim} {rec : List Mat}
    {idxs : List Nat} {st st' : TSt P} {X0 hE0 : Mat}
    (hrun : runWindows c u rec idxs st = .ok st')
    (h : chainedB c X0 hE0 st.calls st.X st.hE = true) :
    chainedB c X0 hE0 st'.calls st'.X st'.hE = true := by
  induction idxs generalizing st with
  | nil =>
    rw [runWindows] at hrun
    injection hrun with e
    rw [← e]
    exact h
  | cons i is ih =>
    rw [runWindows] at hrun
    cases hw : windowStep c u rec st i with
    | error e => rw [hw] at hrun; cases hrun
    | ok st1 =>
      rw [hw] at hrun
      obtain ⟨sp, _, hcore⟩ := windowStep_ok_elim hw
      have h1 : chainedB c X0 hE0 st1.calls st1.X st1.hE = true := by
        rw [hcore]
        exact windowCore_chain c u rec st i sp.1 sp.2 h
      exact ih hrun h1

theorem runRecording_chain {P : Type} {c : Ctx P} {u : Stim} {W em : Nat}
    {rlb : Scalar} {e : Nat} {rec : List Mat} {st : TSt P} {pr : TSt P × Bool}
    {X0 hE0 : Mat} (hr : runRecording c u W em rlb e rec st = .ok pr)
    (h : chainedB c X0 hE0 st.calls st.X st.hE = true) :
    chainedB c X0 hE0 pr.1.calls pr.1.X pr.1.hE = true := by
  obtain ⟨st2, hw, hpr⟩ := runRecording_ok_elim hr
  have h2 := runWindows_chain hw h
  rw [hpr]
  exact h2

theorem runRecordings_chain {P : Type} {c : Ctx P} {u : Stim} {W em : Nat}
    {rlb : Scalar} {e : Nat} {recs : List (List Mat)} {st st' : TSt P}
    {X0 hE0 : Mat} (hrun : runRecordings c u W em rlb e recs st = .ok st')
    (h : chainedB c X0 hE0 st.calls st.X st.hE = true) :
    chainedB c X0 hE0 st'.calls st'.X st'.hE = true := by
  induction recs generalizing st with
  | nil =>
    rw [runRecordings] at hrun
    injection hrun with e'
    rw [← e']
    exact h
  | cons r rs ih =>
    rw [runRecordings] at hrun
    cases hr : runRecording c u W em rlb e r st with
    | error err => rw [hr] at hrun; cases hrun
    | ok pr =>
      rw [hr] at hrun
      dsimp only at hrun
      have h1 := runRecording_chain hr h
      cases hb : pr.2 with
      | true =>
        simp [hb] at hrun
        rw [← hrun]
        exact h1
      | false =>
        simp [hb] at hrun
        exact ih hrun h1

theorem runEpochs_chain {P : Type} {c : Ctx P} {u : Stim} {W em : Nat}
    {rlb : Scalar} {recs : List (List Mat)} {es : List Nat} {st st' : TSt P}
    {X0 hE0 : Mat} (hrun : runEpochs c u W em rlb recs es st = .ok st')
    (h : chainedB c X0 hE0 st.calls st.X st.hE = true) :
    chainedB c X0 hE0 st'.calls st'.X st'.hE = true := by
  induction es generalizing st with
  | nil =>
    rw [runEpochs] at hrun
    injection hrun with e'
    rw [← e']
    exact h
  | cons e rest ih =>
    rw [runEpochs] at hrun
    cases hr : runRecordings c u W em rlb e recs st with
    | error err => rw [hr] at hrun; cases hrun
    | ok st1 =>
      rw [hr] at hrun
      exact ih hrun (runRecordings_chain hr h)

/-! ### Claim C1 -/

/-- C1 counterexample: in a run with one epoch and two one-window
recordings, `createIC(0) = [[0]]` and the toy model's `current_state`
adds 1 per window, so a per-recording re-initialisation would feed
`[[0]]` into the second recording's first window.  The code instead
feeds `[[1]]` — the state left by the first recording — because
`createIC`/`createDelayIC` run once per `train` call, before the epoch
loop. -/
theorem C1_counterexample :
    ((train toyCtx () data2 1 (.intc 0) 10 0 false).toOption.map
      (fun r => (r.calls.getD 1 ⟨[], [], []⟩).Xin) = some [[1]]) ∧
    toyCtx.createIC 0 = [[0]] ∧ ([[(1 : Scalar)]] ≠ [[(0 : Scalar)]]) := by
  refine ⟨by decide, rfl, by decide⟩

/-- C1 amended: the initial state and delay-history buffer are created
by `createIC`/`createDelayIC` exactly once per `train` call, before the
epoch loop; every forward call's `(X, hE)` input is chained from the
previous call's detached output (across windows, recordings and epochs
alike), never re-created per recording. -/
theorem C1_amended_state_threading {P : Type} (c : Ctx P) (p0 : P)
    (data : List (List Mat)) (E : Nat) (u : Stim) (em : Nat) (rlb : Scalar)
    (s : Bool) (res : TSt P)
    (h : train c p0 data E u em rlb s = .ok res) :
    chainedB c (c.createIC 0) (c.createDelayIC 0) res.calls res.X res.hE
      = true := by
  obtain ⟨scheds, hmk, hrun⟩ := train_ok_elim h
  have h0 : chainedB c (c.createIC 0) (c.createDelayIC 0)
      (initState c p0 scheds).calls (initState c p0 scheds).X
      (initState c p0 scheds).hE = true := by
    simp [initState, chainedB]
  exact runEpochs_chain hrun h0

/-- Witness for the amended C1 on the toy run. -/
theorem C1_amended_witness :
    (train toyCtx () data2 1 (.intc 0) 10 0 false).toOption.map
      (fun r => chainedB toyCtx (toyCtx.createIC 0) (toyCtx.createDelayIC 0)
        r.calls r.X r.hE) = some true := by
  obtain ⟨res, htr⟩ := train_false_total toyCtx () data2 1 (.intc 0) 10 0
  rw [htr]
  exact congrArg some
    (C1_amended_state_threading toyCtx () data2 1 (.intc 0) 10 0 false res htr)

/-! ### Helper lemmas: break behaviour with the always-satisfied
threshold (for C3) -/

theorem runRecordings_first_break {P : Type} (c : Ctx P) (u : Stim) (W : Nat)
    (e : Nat) (r : List Mat) (rs : List (List Mat)) {st : TSt P}
    (hn : NoSched st) (he : 0 < e)
    (hd : ∀ a b, (-1 : Scalar) < c.corr01 a b) :
    ∃ st', runRecordings c u W 0 (-1) e (r :: rs) st = .ok st' ∧ NoSched st'
      ∧ Grows c st st' W := by
  obtain ⟨pr, hr, hn1⟩ := runRecording_none_total c u W 0 (-1) e r st hn
  obtain ⟨st2, hw, hpr⟩ := runRecording_ok_elim hr
  have hb : pr.2 = true := by
    rw [hpr]
    simp only [decide_eq_true_eq]
    exact ⟨he, hd _ _⟩
  refine ⟨pr.1, ?_, hn1, runRecording_grows hr⟩
  rw [runRecordings, hr]
  dsimp only
  rw [hb]
  simp

theorem runEpochs_tail_breaks {P : Type} (c : Ctx P) (u : Stim) (W : Nat)
    (r : List Mat) (rs : List (List Mat)) (es : List Nat) {st : TSt P}
    (hn : NoSched st) (hall : ∀ e ∈ es, 0 < e)
    (hd : ∀ a b, (-1 : Scalar) < c.corr01 a b) :
    ∃ st', runEpochs c u W 0 (-1) (r :: rs) es st = .ok st' ∧ NoSched st'
      ∧ Grows c st st' (es.length * W) := by
  induction es generalizing st with
  | nil => exact ⟨st, rfl, hn, by simpa using grows_refl c st⟩
  | cons e rest ih =>
    obtain ⟨st1, hr, hn1, g1⟩ := runRecordings_first_break c u W e r rs hn
      (hall e (List.mem_cons_self e rest)) hd
    obtain ⟨st', hrun, hn', g2⟩ := ih hn1
      (fun x hx => hall x (List.mem_cons_of_mem e hx))
    refine ⟨st', ?_, hn', ?_⟩
    · rw [runEpochs, hr]
      exact hrun
    · have g3 := grows_trans g1 g2
      have hlen : W + rest.length * W = (e :: rest).length * W := by
        simp [List.length_cons, Nat.succ_mul, Nat.add_comm]
      rw [hlen] at g3
      exact g3

/-! ### Claim C2 -/

/-- C2 counterexample: with `epoch_min = 0` (so the claim's condition
"after epoch_min epochs have elapsed" holds from the end of the very
first recording), an always-1 FC diagnostic and threshold `r_lb = 0`,
the claim predicts training stops after 1 window.  The code instead
processes 3 windows (the whole first epoch, because the strict test
`i_epoch > epoch_min` fails at `i_epoch = 0`, and one recording of the
second epoch: the `break` only leaves the recording loop). -/
theorem C2_counterexample :
    ((train toyCtx () data2 2 (.intc 0) 0 0 false).toOption.map
      (fun r => r.calls.length) = some 3) ∧ (3 : Nat) ≠ 1 := by
  exact ⟨by decide, by decide⟩

/-- C2 amended: when a recording finishes with `i_epoch > epoch_min`
(strictly) and FC diagnostic above `r_lb`, the `break` skips only the
remaining recordings of the current epoch; the epoch loop continues
with the next epoch unconditionally. -/
theorem C2_amended_break_scope {P : Type} (c : Ctx P) (u : Stim) (W em : Nat)
    (rlb : Scalar) (e : Nat) (r : List Mat) (rs recs : List (List Mat))
    (st st' st1 st1' : TSt P) (es : List Nat) :
    (runRecording c u W em rlb e r st = .ok (st', true) →
      runRecordings c u W em rlb e (r :: rs) st = .ok st') ∧
    (runRecordings c u W em rlb e recs st1 = .ok st1' →
      runEpochs c u W em rlb recs (e :: es) st1 =
        runEpochs c u W em rlb recs es st1') := by
  constructor
  · intro h
    rw [runRecordings, h]
    rfl
  · intro h
    rw [runEpochs, h]

/-- Witness for the amended C2: a concrete breaking recording at epoch 1
of the toy setup; the recording loop stops with its state, and the epoch
loop goes on. -/
theorem C2_witness :
    ∃ st', (runRecording toyCtx (.intc 0) 1 0 0 1 [w0]
        (initState toyCtx () (none, none)) = .ok (st', true)) ∧
      runRecordings toyCtx (.intc 0) 1 0 0 1 data2
        (initState toyCtx () (none, none)) = .ok st' ∧
      runEpochs toyCtx (.intc 0) 1 0 0 data2 [1]
        (initState toyCtx () (none, none)) =
        runEpochs toyCtx (.intc 0) 1 0 0 data2 [] st' := by
  cases hres : runRecording toyCtx (.intc 0) 1 0 0 1 [w0]
      (initState toyCtx () (none, none)) with
  | error err =>
    obtain ⟨pr, hr, _⟩ := runRecording_none_total toyCtx (.intc 0) 1 0 0 1 [w0]
      (initState toyCtx () (none, none)) ⟨rfl, rfl⟩
    rw [hr] at hres
    cases hres
  | ok pr =>
    obtain ⟨st2, hw, hpr⟩ := runRecording_ok_elim hres
    have hb : pr.2 = true := by
      rw [hpr]
      simp only [decide_eq_true_eq]
      refine ⟨by omega, ?_⟩
      show (0 : Scalar) < 1
      decide
    have hpr2 : pr = (pr.1, true) := by rw [← hb]
    have hres2 : runRecording toyCtx (.intc 0) 1 0 0 1 [w0]
        (initState toyCtx () (none, none)) = .ok (pr.1, true) := by
      rw [hres, hpr2]
    have main := C2_amended_break_scope toyCtx (.intc 0) 1 0 0 1 [w0] [[w0]]
      data2 (initState toyCtx () (none, none)) pr.1
      (initState toyCtx () (none, none)) pr.1 []
    have h1 : runRecordings toyCtx (.intc 0) 1 0 0 1 data2
        (initState toyCtx () (none, none)) = .ok pr.1 := main.1 hres2
    exact ⟨pr.1, congrArg Except.ok hpr2, h1, main.2 h1⟩

/-! ### Claim C3 -/

/-- C3 counterexample: with `epoch_min = 0`, `r_lb = -1` and an FC
diagnostic that is constantly 1 (hence above -1), the claim predicts
exactly one recording (1 window here) is processed.  The run instead
processes 3 windows: both recordings of epoch 0 (the strict test
`0 > 0` fails) and one recording of epoch 1. -/
theorem C3_counterexample :
    ((train toyCtx () data2 2 (.intc 0) 0 (-1) false).toOption.map
      (fun r => r.calls.length) = some 3) ∧ (3 : Nat) ≠ 1 := by
  exact ⟨by decide, by decide⟩

/-- C3 amended: with `epoch_min = 0` and `r_lb = -1` (any diagnostic
value exceeds it), the first epoch still processes every recording —
the strict early-stop test `i_epoch > epoch_min` cannot fire at
`i_epoch = 0` — and each later epoch processes exactly one recording
before breaking, so a run with `E` epochs over `R` recordings of `W`
windows executes `(R + E - 1) * W` windows in total (scheduler off, to
keep the scheduler-overflow failure of C9 out of the way). -/
theorem C3_amended_window_count {P : Type} (c : Ctx P) (p0 : P)
    (data : List (List Mat)) (E : Nat) (u : Stim)
    (hd : ∀ a b, (-1 : Scalar) < c.corr01 a b)
    (hE : 1 ≤ E) (hR : 1 ≤ data.length) :
    ∃ res, train c p0 data E u 0 (-1) false = .ok res ∧
      res.calls.length = (data.length + E - 1) * (data.headD []).length := by
  obtain ⟨E', rfl⟩ : ∃ E', E = E' + 1 := ⟨E - 1, by omega⟩
  cases data with
  | nil => simp at hR
  | cons r rs =>
    have hn0 : NoSched (initState c p0 (none, none)) := ⟨rfl, rfl⟩
    obtain ⟨st1, h1, hn1⟩ := runRecordings_none_total c u
      ((r :: rs).headD []).length 0 (-1) 0 (r :: rs)
      (initState c p0 (none, none)) hn0
    have g1 := runRecordings_grows_nobreak (by omega) h1
    obtain ⟨res, h2, hn2, g2⟩ := runEpochs_tail_breaks c u
      ((r :: rs).headD []).length r rs (List.map Nat.succ (List.range E')) hn1
      (fun x hx => by
        obtain ⟨y, hy, rfl⟩ := List.mem_map.mp hx
        exact Nat.succ_pos y) hd
    refine ⟨res, ?_, ?_⟩
    · unfold train
      rw [List.range_succ_eq_map]
      show runEpochs c u ((r :: rs).headD []).length 0 (-1) (r :: rs)
        (0 :: List.map Nat.succ (List.range E'))
        (initState c p0 (none, none)) = .ok res
      rw [runEpochs, h1]
      exact h2
    · have e1 := g1.2.1
      have e2 := g2.2.1
      rw [List.length_map, List.length_range] at e2
      have h0 : (initState c p0 (none, none)).calls.length = 0 := rfl
      rw [h0] at e1
      have hW : ((r :: rs).length + (E' + 1) - 1) = (r :: rs).length + E' := by
        omega
      rw [hW, Nat.add_mul]
      omega

/-- Witness for the amended C3 on the toy setup: 2 epochs over 2
one-window recordings give (2 + 2 - 1) * 1 = 3 processed windows. -/
theorem C3_amended_witness :
    ∃ res, train toyCtx () data2 2 (.intc 0) 0 (-1) false = .ok res ∧
      res.calls.length = (data2.length + 2 - 1) * (data2.headD []).length := by
  refine C3_amended_window_count toyCtx () data2 2 (Stim.intc 0) ?_ (by omega) (by decide)
  intro a b
  show (-1 : Scalar) < 1
  decide

/-! ### Helper lemmas: zero external input under an int stimulus
(for C10) -/

theorem windowCore_zero_ext {P : Type} (c : Ctx P) (z : Int) (rec : List Mat)
    (st : TSt P) (i : Nat) (hs ms : Option Sched)
    (hx : st.external = zeros3 c.node_size c.steps_per_TR c.TRs_per_window)
    (hc : AllZeroExt c.node_size c.steps_per_TR c.TRs_per_window st.calls) :
    (windowCore c (.intc z) rec st i hs ms).external
        = zeros3 c.node_size c.steps_per_TR c.TRs_per_window ∧
      AllZeroExt c.node_size c.steps_per_TR c.TRs_per_window
        (windowCore c (.intc z) rec st i hs ms).calls := by
  constructor
  · exact hx
  · intro cl hcl
    have hcalls : (windowCore c (.intc z) rec st i hs ms).calls
        = st.calls ++ [⟨st.external, st.X, st.hE⟩] := rfl
    rw [hcalls] at hcl
    rcases List.mem_append.mp hcl with hoo | hnew
    · exact hc cl hoo
    · rw [List.mem_singleton.mp hnew]
      exact hx

theorem runWindows_zero_ext {P : Type} {c : Ctx P} {z : Int} {rec : List Mat}
    {idxs : List Nat} {st st' : TSt P}
    (h : runWindows c (.intc z) rec idxs st = .ok st')
    (hx : st.external = zeros3 c.node_size c.steps_per_TR c.TRs_per_window)
    (hc : AllZeroExt c.node_size c.steps_per_TR c.TRs_per_window st.calls) :
    st'.external = zeros3 c.node_size c.steps_per_TR c.TRs_per_window ∧
      AllZeroExt c.node_size c.steps_per_TR c.TRs_per_window st'.calls := by
  induction idxs generalizing st with
  | nil =>
    rw [runWindows] at h
    injection h with h
    rw [← h]
    exact ⟨hx, hc⟩
  | cons i is ih =>
    rw [runWindows] at h
    cases hw : windowStep c (.intc z) rec st i with
    | error e => rw [hw] at h; cases h
    | ok st1 =>
      rw [hw] at h
      obtain ⟨sp, _, hcore⟩ := windowStep_ok_elim hw
      have step := windowCore_zero_ext c z rec st i sp.1 sp.2 hx hc
      rw [← hcore] at step
      exact ih h step.1 step.2

theorem runRecording_zero_ext {P : Type} {c : Ctx P} {z : Int} {W em : Nat}
    {rlb : Scalar} {e : Nat} {rec : List Mat} {st : TSt P} {pr : TSt P × Bool}
    (h : runRecording c (.intc z) W em rlb e rec st = .ok pr)
    (hc : AllZeroExt c.node_size c.steps_per_TR c.TRs_per_window st.calls) :
    AllZeroExt c.node_size c.steps_per_TR c.TRs_per_window pr.1.calls := by
  obtain ⟨st2, hw, hpr⟩ := runRecording_ok_elim h
  have step := runWindows_zero_ext hw rfl hc
  rw [hpr]
  exact step.2

theorem runRecordings_zero_ext {P : Type} {c : Ctx P} {z : Int} {W em : Nat}
    {rlb : Scalar} {e : Nat} {recs : List (List Mat)} {st st' : TSt P}
    (h : runRecordings c (.intc z) W em rlb e recs st = .ok st')
    (hc : AllZeroExt c.node_size c.steps_per_TR c.TRs_per_window st.calls) :
    AllZeroExt c.node_size c.steps_per_TR c.TRs_per_window st'.calls := by
  induction recs generalizing st with
  | nil =>
    rw [runRecordings] at h
    injection h with h
    rw [← h]
    exact hc
  | cons r rs ih =>
    rw [runRecordings] at h
    cases hr : runRecording c (.intc z) W em rlb e r st with
    | error err => rw [hr] at h; cases h
    | ok pr =>
      rw [hr] at h
      dsimp only at h
      have h1 := runRecording_zero_ext hr hc
      cases hb : pr.2 with
      | true =>
        simp [hb] at h
        rw [← h]
        exact h1
      | false =>
        simp [hb] at h
        exact ih h h1

theorem runEpochs_zero_ext {P : Type} {c : Ctx P} {z : Int} {W em : Nat}
    {rlb : Scalar} {recs : List (List Mat)} {es : List Nat} {st st' : TSt P}
    (h : runEpochs c (.intc z) W em rlb recs es st = .ok st')
    (hc : AllZeroExt c.node_size c.steps_per_TR c.TRs_per_window st.calls) :
    AllZeroExt c.node_size c.steps_per_TR c.TRs_per_window st'.calls := by
  induction es generalizing st with
  | nil =>
    rw [runEpochs] at h
    injection h with h
    rw [← h]
    exact hc
  | cons e rest ih =>
    rw [runEpochs] at h
    cases hr : runRecordings c (.intc z) W em rlb e recs st with
    | error err => rw [hr] at h; cases h
    | ok st1 =>
      rw [hr] at h
      exact ih h (runRecordings_zero_ext hr hc)

/-! ### Claim C10 -/

/-- C10: for every integer stimulus value `u = z` passed to `train` —
including nonzero integers such as 5 — every forward-model call of a
completed run received the all-zero external-input tensor.  The
stimulus-slicing branch of the window loop is taken only when `u` is
not an `int` (the `Stim.arr` constructor): with `Stim.intc z` the
`external` variable keeps its per-recording zero initialisation. -/
theorem C10_int_stimulus_zero_external {P : Type} (c : Ctx P) (p0 : P)
    (data : List (List Mat)) (E : Nat) (z : Int) (em : Nat) (rlb : Scalar)
    (s : Bool) (res : TSt P)
    (h : train c p0 data E (.intc z) em rlb s = .ok res) :
    AllZeroExt c.node_size c.steps_per_TR c.TRs_per_window res.calls := by
  obtain ⟨scheds, hmk, hrun⟩ := train_ok_elim h
  refine runEpochs_zero_ext hrun ?_
  intro cl hcl
  cases hcl

/-- Witness for C10 with the nonzero stimulus `u = 5`. -/
theorem C10_witness :
    (train toyCtx () data2 1 (.intc 5) 10 0 false).toOption.map
      (fun r => decide (∀ cl ∈ r.calls, cl.ext = zeros3 toyCtx.node_size
        toyCtx.steps_per_TR toyCtx.TRs_per_window)) = some true := by
  obtain ⟨res, htr⟩ := train_false_total toyCtx () data2 1 (.intc 5) 10 0
  rw [htr]
  exact congrArg some (decide_eq_true
    (C10_int_stimulus_zero_external toyCtx () data2 1 5 10 0 false res htr))

/-! ### Helper lemmas: scheduler step counting (for C9) -/

theorem schedStep2_over {T k : Nat} (hover : T < k + 1) :
    schedStep2 (some ⟨T, k⟩) (some ⟨T, k⟩) = .error overstepMsg := by
  have hstep : Sched.step ⟨T, k⟩ = .error overstepMsg := by
    unfold Sched.step
    rw [if_pos hover]
  simp [schedStep2, hstep]

theorem schedStep2_okstep {T k : Nat} (hle : k + 1 ≤ T) :
    schedStep2 (some ⟨T, k⟩) (some ⟨T, k⟩)
      = .ok (some ⟨T, k + 1⟩, some ⟨T, k + 1⟩) := by
  have hstep : Sched.step ⟨T, k⟩ = .ok ⟨T, k + 1⟩ := by
    unfold Sched.step
    rw [if_neg (Nat.not_lt.mpr hle)]
  simp [schedStep2, hstep]

theorem windowStep_sched_over {P : Type} {c : Ctx P} {u : Stim}
    {rec : List Mat} {st : TSt P} {i T k : Nat} (hs : SchedAt st T k)
    (hover : T < k + 1) : windowStep c u rec st i = .error overstepMsg := by
  unfold windowStep
  rw [hs.1, hs.2, schedStep2_over hover]
  rfl

theorem windowStep_sched_okstep {P : Type} {c : Ctx P} {u : Stim}
    {rec : List Mat} {st : TSt P} {i T k : Nat} (hs : SchedAt st T k)
    (hle : k + 1 ≤ T) :
    windowStep c u rec st i
        = .ok (windowCore c u rec st i (some ⟨T, k + 1⟩) (some ⟨T, k + 1⟩)) ∧
      SchedAt (windowCore c u rec st i (some ⟨T, k + 1⟩) (some ⟨T, k + 1⟩))
        T (k + 1) := by
  constructor
  · unfold windowStep
    rw [hs.1, hs.2, schedStep2_okstep hle]
    rfl
  · exact ⟨rfl, rfl⟩

theorem runWindows_sched_okrun {P : Type} {c : Ctx P} {u : Stim}
    {rec : List Mat} (idxs : List Nat) {st : TSt P} {T k : Nat}
    (hs : SchedAt st T k) (hle : k + idxs.length ≤ T) :
    ∃ st', runWindows c u rec idxs st = .ok st'
      ∧ SchedAt st' T (k + idxs.length) := by
  induction idxs generalizing st k with
  | nil => exact ⟨st, rfl, by simpa using hs⟩
  | cons i is ih =>
    have hle1 : k + 1 ≤ T := by
      simp only [List.length_cons] at hle
      omega
    obtain ⟨hw, hs1⟩ := windowStep_sched_okstep hs hle1
    obtain ⟨st', hrun, hs'⟩ := ih hs1 (by
      simp only [List.length_cons] at hle
      omega)
    refine ⟨st', ?_, ?_⟩
    · rw [runWindows, hw]
      exact hrun
    · have harith : k + 1 + is.length = k + (i :: is).length := by
        simp only [List.length_cons]
        omega
      rw [harith] at hs'
      exact hs'

theorem runWindows_sched_over {P : Type} {c : Ctx P} {u : Stim}
    {rec : List Mat} (idxs : List Nat) {st : TSt P} {T k : Nat}
    (hs : SchedAt st T k) (hk : k ≤ T) (hover : T < k + idxs.length) :
    runWindows c u rec idxs st = .error overstepMsg := by
  induction idxs generalizing st k with
  | nil =>
    simp only [List.length_nil] at hover
    omega
  | cons i is ih =>
    by_cases h1 : k + 1 ≤ T
    · obtain ⟨hw, hs1⟩ := windowStep_sched_okstep hs h1
      rw [runWindows, hw]
      exact ih hs1 h1 (by
        simp only [List.length_cons] at hover
        omega)
    · rw [runWindows, windowStep_sched_over hs (by omega)]

theorem runRecording_sched_okrun {P : Type} {c : Ctx P} {u : Stim}
    {W em : Nat} {rlb : Scalar} {e : Nat} {rec : List Mat} {st : TSt P}
    {T k : Nat} (hs : SchedAt st T k) (hle : k + W ≤ T) :
    ∃ pr, runRecording c u W em rlb e rec st = .ok pr
      ∧ SchedAt pr.1 T (k + W) ∧ (pr.2 = true → e > em) := by
  have hs1 : SchedAt
      { st with windList := fun _ => []
                external := zeros3 c.node_size c.steps_per_TR c.TRs_per_window }
      T k := hs
  obtain ⟨st2, hrun, hs2⟩ := runWindows_sched_okrun (List.range W) hs1
    (by simpa [List.length_range] using hle)
  rw [List.length_range] at hs2
  refine ⟨({ st2 with lastWind := fun n => hcatAll (st2.windList n) },
           decide (e > em ∧
             recordingDiag c rec (hcatAll (st2.windList (c.output_names.headD "")))
               > rlb)), ?_, hs2, ?_⟩
  · unfold runRecording
    rw [hrun]
  · intro hb
    exact (of_decide_eq_true hb).1

theorem runRecording_sched_over {P : Type} {c : Ctx P} {u : Stim}
    {W em : Nat} {rlb : Scalar} {e : Nat} {rec : List Mat} {st : TSt P}
    {T k : Nat} (hs : SchedAt st T k) (hk : k ≤ T) (hover : T < k + W) :
    runRecording c u W em rlb e rec st = .error overstepMsg := by
  have hs1 : SchedAt
      { st with windList := fun _ => []
                external := zeros3 c.node_size c.steps_per_TR c.TRs_per_window }
      T k := hs
  unfold runRecording
  rw [runWindows_sched_over (List.range W) hs1 hk
    (by simpa [List.length_range] using hover)]

theorem runRecordings_sched_okrun {P : Type} {c : Ctx P} {u : Stim}
    {W em : Nat} {rlb : Scalar} {e : Nat} (recs : List (List Mat))
    {st : TSt P} {T k : Nat} (hem : ¬ e > em) (hs : SchedAt st T k)
    (hle : k + recs.length * W ≤ T) :
    ∃ st', runRecordings c u W em rlb e recs st = .ok st'
      ∧ SchedAt st' T (k + recs.length * W) := by
  induction recs generalizing st k with
  | nil => exact ⟨st, rfl, by simpa using hs⟩
  | cons r rs ih =>
    have hle1 : k + W ≤ T := by
      simp only [List.length_cons, Nat.succ_mul] at hle
      omega
    obtain ⟨pr, hr, hs1, hbe⟩ := runRecording_sched_okrun hs hle1
    have hb : pr.2 = false := by
      cases hb2 : pr.2 with
      | false => rfl
      | true => exact absurd (hbe hb2) hem
    obtain ⟨st', hrun, hs'⟩ := ih hs1 (by
      simp only [List.length_cons, Nat.succ_mul] at hle ⊢
      omega)
    refine ⟨st', ?_, ?_⟩
    · rw [runRecordings, hr]
      dsimp only
      rw [hb]
      simpa using hrun
    · have harith : k + W + rs.length * W = k + (r :: rs).length * W := by
        simp only [List.length_cons, Nat.succ_mul]
        omega
      rw [harith] at hs'
      exact hs'

theorem runRecordings_sched_over {P : Type} {c : Ctx P} {u : Stim}
    {W em : Nat} {rlb : Scalar} {e : Nat} (recs : List (List Mat))
    {st : TSt P} {T k : Nat} (hem : ¬ e > em) (hs : SchedAt st T k)
    (hk : k ≤ T) (hover : T < k + recs.length * W) :
    runRecordings c u W em rlb e recs st = .error overstepMsg := by
  induction recs generalizing st k with
  | nil =>
    simp only [List.length_nil, Nat.zero_mul] at hover
    omega
  | cons r rs ih =>
    by_cases h1 : k + W ≤ T
    · obtain ⟨pr, hr, hs1, hbe⟩ := runRecording_sched_okrun hs h1
      have hb : pr.2 = false := by
        cases hb2 : pr.2 with
        | false => rfl
        | true => exact absurd (hbe hb2) hem
      rw [runRecordings, hr]
      dsimp only
      rw [hb]
      simp only [Bool.false_eq_true, if_false]
      exact ih hs1 h1 (by
        simp only [List.length_cons, Nat.succ_mul] at hover
        omega)
    · rw [runRecordings, runRecording_sched_over hs hk (by omega)]

theorem runEpochs_sched_over {P : Type} {c : Ctx P} {u : Stim}
    {W em : Nat} {rlb : Scalar} {recs : List (List Mat)} (es : List Nat)
    {st : TSt P} {T k : Nat} (hall : ∀ e ∈ es, ¬ e > em)
    (hs : SchedAt st T k) (hk : k ≤ T)
    (hover : T < k + es.length * (recs.length * W)) :
    runEpochs c u W em rlb recs es st = .error overstepMsg := by
  induction es generalizing st k with
  | nil =>
    simp only [List.length_nil, Nat.zero_mul] at hover
    omega
  | cons e rest ih =>
    by_cases h1 : k + recs.length * W ≤ T
    · obtain ⟨st1, hr, hs1⟩ := runRecordings_sched_okrun recs
        (hall e (List.mem_cons_self e rest)) hs h1
      rw [runEpochs, hr]
      exact ih (fun x hx => hall x (List.mem_cons_of_mem e hx)) hs1 h1 (by
        simp only [List.length_cons, Nat.succ_mul] at hover
        omega)
    · rw [runEpochs, runRecordings_sched_over recs
        (hall e (List.mem_cons_self e rest)) hs hk (by omega)]

/-! ### Claim C9 -/

/-- C9: with `lr_scheduler` enabled the two `OneCycleLR` schedulers are
created for `total_steps = num_windows * num_epoches`, yet they are
stepped once per window per recording per epoch, i.e.
`num_epoches * num_recordings * num_windows` times.  For two or more
recordings (absent early stopping, here `num_epoches ≤ epoch_min + 1`)
the scheduler step count passes `total_steps` mid-run and `train`
terminates with the scheduler's step `ValueError` instead of
completing. -/
theorem C9_scheduler_overstep {P : Type} (c : Ctx P) (p0 : P)
    (data : List (List Mat)) (E : Nat) (u : Stim) (em : Nat) (rlb : Scalar)
    (hW : 1 ≤ (data.headD []).length) (hR : 2 ≤ data.length) (hE : 1 ≤ E)
    (hstop : E ≤ em + 1) :
    train c p0 data E u em rlb true = .error overstepMsg := by
  have hT : ¬ (data.headD []).length * E = 0 := by
    intro habs
    rcases Nat.mul_eq_zero.mp habs with h | h <;> omega
  have hmk : mkScheds (data.headD []).length E true
      = .ok (some ⟨(data.headD []).length * E, 0⟩,
             some ⟨(data.headD []).length * E, 0⟩) := by
    unfold mkScheds mkOneCycle
    rw [if_pos rfl, if_neg hT]
  unfold train
  rw [hmk]
  have hs0 : SchedAt (initState c p0
      (some ⟨(data.headD []).length * E, 0⟩,
       some ⟨(data.headD []).length * E, 0⟩))
      ((data.headD []).length * E) 0 := ⟨rfl, rfl⟩
  have hall : ∀ e ∈ List.range E, ¬ e > em := by
    intro e he
    have := List.mem_range.mp he
    omega
  refine runEpochs_sched_over (List.range E) hall hs0 (Nat.zero_le _) ?_
  rw [List.length_range]
  have h1 : 1 ≤ E * (data.headD []).length :=
    Nat.one_le_iff_ne_zero.mpr (by
      intro habs
      rcases Nat.mul_eq_zero.mp habs with h | h <;> omega)
  have h2 : E * (2 * (data.headD []).length)
      ≤ E * (data.length * (data.headD []).length) :=
    Nat.mul_le_mul_left _ (Nat.mul_le_mul_right _ hR)
  have h3 : E * (2 * (data.headD []).length)
      = E * (data.headD []).length + E * (data.headD []).length := by ring
  have h4 : (data.headD []).length * E = E * (data.headD []).length :=
    Nat.mul_comm _ _
  omega

/-- Witness for C9: one epoch over two one-window recordings with the
scheduler on fails with the overstep error (total_steps = 1, but 2
steps are attempted). -/
theorem C9_witness :
    train toyCtx () data2 1 (.intc 0) 10 0 true = .error overstepMsg :=
  C9_scheduler_overstep toyCtx () data2 1 (.intc 0) 10 0 (by decide)
    (by decide) (by decide) (by omega)

/-! ### Claim C8 -/

/-- C8: the FC correlation diagnostic trims a transient prefix of 10
time steps off the simulated signal before forming its correlation
matrix, while the empirical signal's correlation matrix is formed
untrimmed — in the training loop (where the diagnostic also drives the
early-stop flag; the literal 10 of source line 219) and in `evaluate`
(the named constant `transient_num = 10`). -/
theorem C8_fc_transient_trim {P : Type} (c : Ctx P) (u : Stim) (W em : Nat)
    (rlb : Scalar) (e : Nat) (rec : List Mat) (st st' : TSt P) (brk : Bool)
    (data : List (List Mat)) (N : Nat) (v : Stim)
    (h : runRecording c u W em rlb e rec st = .ok (st', brk)) :
    (brk = decide (e > em ∧
      c.corr01
        (maskVals c.output_size
          (c.corrcoef ((st'.lastWind (c.output_names.headD "")).map
            (fun row => row.drop 10))))
        (maskVals c.output_size (c.corrcoef (hcatAll rec))) > rlb)) ∧
    (evaluate c data N v).diag =
      c.corr01
        (maskVals c.output_size
          (c.corrcoef (((evaluate c data N v).windCat
            (c.output_names.headD "")).map
            (fun row => row.drop transient_num))))
        (maskVals c.output_size (c.corrcoef (hcatAll (data.headD [])))) ∧
    transient_num = 10 := by
  obtain ⟨st2, hw, hpr⟩ := runRecording_ok_elim h
  have hst : st' = { st2 with lastWind := fun n => hcatAll (st2.windList n) } :=
    congrArg Prod.fst hpr
  have hbrk : brk = decide (e > em ∧
      recordingDiag c rec (hcatAll (st2.windList (c.output_names.headD ""))) > rlb) :=
    congrArg Prod.snd hpr
  refine ⟨?_, rfl, rfl⟩
  rw [hbrk, hst]
  rfl

/-- Witness for C8 at a concrete non-breaking toy recording. -/
theorem C8_witness :
    ∃ st' brk,
      runRecording toyCtx (.intc 0) 1 10 0 0 [w0]
        (initState toyCtx () (none, none)) = .ok (st', brk) ∧
      brk = decide ((0 : Nat) > 10 ∧
        toyCtx.corr01
          (maskVals toyCtx.output_size
            (toyCtx.corrcoef ((st'.lastWind (toyCtx.output_names.headD "")).map
              (fun row => row.drop 10))))
          (maskVals toyCtx.output_size (toyCtx.corrcoef (hcatAll [w0]))) > 0) ∧
      transient_num = 10 := by
  cases hres : runRecording toyCtx (.intc 0) 1 10 0 0 [w0]
      (initState toyCtx () (none, none)) with
  | error err =>
    obtain ⟨pr, hr, _⟩ := runRecording_none_total toyCtx (.intc 0) 1 10 0 0 [w0]
      (initState toyCtx () (none, none)) ⟨rfl, rfl⟩
    rw [hr] at hres
    cases hres
  | ok pr =>
    have hres2 : runRecording toyCtx (.intc 0) 1 10 0 0 [w0]
        (initState toyCtx () (none, none)) = .ok (pr.1, pr.2) := hres
    have main := C8_fc_transient_trim toyCtx (.intc 0) 1 10 0 0 [w0] _ pr.1 pr.2
      [[w0]] 0 (.intc 0) hres2
    exact ⟨pr.1, pr.2, rfl, main.1, main.2.2⟩

/-! ### Claim C4 -/

/-- C4 (code bug): `method_arg_type_check` consults `locals()` of its
own stack frame, which never contains the checked call's arguments —
the function receives only the method object.  So for a function with
parameter `x : int` it raises nothing no matter what was passed
(contradicting its docstring, which promises a descriptive
`ValueError` on any mismatch), while a function whose parameter is
named like one of the checker's own locals (here `arg_name`, a `str`
in the checker's frame) raises spuriously even on a well-typed call. -/
theorem C4_check_never_sees_arguments :
    method_arg_type_check [("x", PyType.tInt)] = .ok () ∧
    method_arg_type_check [("arg_name", PyType.tInt)]
      = .error "arg_name should be of type int, but got type str instead." := by
  exact ⟨rfl, rfl⟩

/-! ### Helper lemmas: entry lookups (for C7) -/

theorem getD_map_fn {α β : Type} (f : α → β) (l : List α) (i : Nat) (d : α) :
    (l.map f).getD i (f d) = f (l.getD i d) := by
  rw [List.getD_eq_getElem?_getD, List.getD_eq_getElem?_getD, List.getElem?_map]
  cases l[i]? <;> rfl

theorem getD_range_map {β : Type} (g : Nat → β) (d : β) {n i : Nat} (h : i < n) :
    ((List.range n).map g).getD i d = g i := by
  rw [List.getD_eq_getElem?_getD, List.getElem?_map, List.getElem?_range h]
  rfl

theorem getD_slice_row (row : List Scalar) (lo hi l : Nat) (hl : l < hi - lo) :
    ((row.drop lo).take (hi - lo)).getD l 0 = row.getD (lo + l) 0 := by
  rw [List.getD_eq_getElem?_getD, List.getElem?_take, if_pos hl,
    List.getElem?_drop, ← List.getD_eq_getElem?_getD]

theorem get3_slice3 (a : Tensor3) (lo hi i j l : Nat) (hl : l < hi - lo) :
    get3 (slice3 a lo hi) i j l = get3 a i j (lo + l) := by
  unfold get3 slice3
  have h1 : (a.map (fun m => m.map (fun row => (row.drop lo).take (hi - lo)))).getD
      i [] = (a.getD i []).map (fun row => (row.drop lo).take (hi - lo)) := by
    have := getD_map_fn (fun m : Mat =>
      m.map (fun row => (row.drop lo).take (hi - lo))) a i []
    simpa using this
  rw [h1]
  have h2 : ((a.getD i []).map (fun row => (row.drop lo).take (hi - lo))).getD
      j [] = (((a.getD i []).getD j []).drop lo).take (hi - lo) := by
    have := getD_map_fn (fun row : List Scalar =>
      (row.drop lo).take (hi - lo)) (a.getD i []) j []
    simpa using this
  rw [h2, getD_slice_row _ _ _ _ hl]

theorem get3_buildUhat {P : Type} (c : Ctx P) (N Wn : Nat) (u : Stim)
    {i j k : Nat} (hi : i < c.node_size) (hj : j < c.steps_per_TR)
    (hk : k < N * c.TRs_per_window + Wn * c.TRs_per_window) :
    get3 (buildUhat c N Wn u) i j k =
      if k < N * c.TRs_per_window then 0
      else stimVal u i j (k - N * c.TRs_per_window) := by
  unfold buildUhat get3
  rw [getD_range_map _ _ hi, getD_range_map _ _ hj, getD_range_map _ _ hk]
  cases u <;> rfl

theorem evalStep_windList {P : Type} (c : Ctx P) (u_hat : Tensor3) (N : Nat)
    (st : ESt) (w : Nat) :
    (evalStep c u_hat N st w).windList =
      if ((w : ℤ) > (N : ℤ) - 1) then
        appendWind (c.state_names ++ c.output_names)
          ((c.forward (slice3 u_hat (w * c.TRs_per_window)
            ((w + 1) * c.TRs_per_window)) st.X st.hE).1) st.windList
      else st.windList := rfl

theorem evalSteps_calls_ext {P : Type} (c : Ctx P) (u_hat : Tensor3) (N : Nat)
    (l : List Nat) (st : ESt) :
    ((l.foldl (evalStep c u_hat N) st).calls).map (fun cl => cl.ext)
      = (st.calls.map (fun cl => cl.ext)) ++
        l.map (fun w => slice3 u_hat (w * c.TRs_per_window)
          ((w + 1) * c.TRs_per_window)) := by
  induction l generalizing st with
  | nil => simp
  | cons w ws ih =>
    rw [List.foldl_cons, ih]
    have hc : (evalStep c u_hat N st w).calls
        = st.calls ++ [⟨slice3 u_hat (w * c.TRs_per_window)
            ((w + 1) * c.TRs_per_window), st.X, st.hE⟩] := rfl
    rw [hc]
    simp

theorem evalSteps_windList_len {P : Type} (c : Ctx P) (u_hat : Tensor3)
    (N : Nat) (l : List Nat) (st : ESt) {nm : String}
    (hnd : (c.state_names ++ c.output_names).Nodup)
    (hm : nm ∈ c.state_names ++ c.output_names) :
    ((l.foldl (evalStep c u_hat N) st).windList nm).length
      = (st.windList nm).length
        + l.countP (fun w : Nat => decide ((w : ℤ) > (N : ℤ) - 1)) := by
  induction l generalizing st with
  | nil => simp
  | cons w ws ih =>
    rw [List.foldl_cons, ih, List.countP_cons]
    have hwl : ((evalStep c u_hat N st w).windList nm).length
        = (st.windList nm).length
          + (if ((w : ℤ) > (N : ℤ) - 1) then 1 else 0) := by
      rw [evalStep_windList]
      by_cases hg : ((w : ℤ) > (N : ℤ) - 1)
      · rw [if_pos hg, if_pos hg, appendWind, updFold_mem _ _ hnd hm]
        simp
      · rw [if_neg hg, if_neg hg]
        omega
    rw [hwl]
    by_cases hg : ((w : ℤ) > (N : ℤ) - 1)
    · simp [hg]
      omega
    · simp [hg]

theorem countP_range_guard (N Wn : Nat) :
    (List.range (Wn + N)).countP (fun w : Nat => decide ((w : ℤ) > (N : ℤ) - 1))
      = Wn := by
  rw [Nat.add_comm Wn N, List.range_add, List.countP_append]
  have h1 : (List.range N).countP (fun w : Nat => decide ((w : ℤ) > (N : ℤ) - 1))
      = 0 := by
    rw [List.countP_eq_zero]
    intro a ha
    have := List.mem_range.mp ha
    simp only [decide_eq_true_eq]
    omega
  have h2 : ((List.range Wn).map (fun x => N + x)).countP
      (fun w : Nat => decide ((w : ℤ) > (N : ℤ) - 1)) = Wn := by
    have hall : ∀ a ∈ (List.range Wn).map (fun x => N + x),
        (fun w : Nat => decide ((w : ℤ) > (N : ℤ) - 1)) a = true := by
      intro a ha
      obtain ⟨y, hy, rfl⟩ := List.mem_map.mp ha
      simp only [decide_eq_true_eq]
      omega
    rw [List.countP_eq_length.mpr hall]
    simp
  rw [h1, h2]
  omega

/-! ### Claim C7 -/

/-- C7: `evaluate` with `base_window_num = N` issues `num_windows + N`
forward calls, buffers exactly the final `num_windows` windows per
variable (the first `N` burn-in windows are discarded, so the retained
trajectory is the concatenation of exactly `num_windows` windows), and
the external input fed to the model is zero at every in-range position
during the `N` burn-in windows and equals the supplied stimulus, read
at the matching time offset, for the subsequent windows. -/
theorem C7_evaluate_burn_in {P : Type} (c : Ctx P) (data : List (List Mat))
    (N : Nat) (u : Stim)
    (hnd : (c.state_names ++ c.output_names).Nodup) :
    (evaluate c data N u).calls.length = (data.headD []).length + N ∧
    (∀ nm ∈ c.state_names ++ c.output_names,
      ((evaluate c data N u).windListRaw nm).length
        = (data.headD []).length) ∧
    (∀ w i j l, w < N → i < c.node_size → j < c.steps_per_TR →
      l < c.TRs_per_window →
      get3 (((evaluate c data N u).calls.getD w ⟨[], [], []⟩).ext) i j l
        = 0) ∧
    (∀ w i j l, N ≤ w → w < N + (data.headD []).length →
      i < c.node_size → j < c.steps_per_TR → l < c.TRs_per_window →
      get3 (((evaluate c data N u).calls.getD w ⟨[], [], []⟩).ext) i j l
        = stimVal u i j ((w - N) * c.TRs_per_window + l)) := by
  have hcx : (evaluate c data N u).calls =
      ((List.range ((data.headD []).length + N)).foldl
        (evalStep c (buildUhat c N (data.headD []).length u) N)
        ⟨c.createIC 1, c.createDelayIC 1, fun _ => [], []⟩).calls := rfl
  have hwx : (evaluate c data N u).windListRaw =
      ((List.range ((data.headD []).length + N)).foldl
        (evalStep c (buildUhat c N (data.headD []).length u) N)
        ⟨c.createIC 1, c.createDelayIC 1, fun _ => [], []⟩).windList := rfl
  have hmapext := evalSteps_calls_ext c (buildUhat c N (data.headD []).length u)
    N (List.range ((data.headD []).length + N))
    ⟨c.createIC 1, c.createDelayIC 1, fun _ => [], []⟩
  have hext : ∀ w, w < (data.headD []).length + N →
      ((evaluate c data N u).calls.getD w ⟨[], [], []⟩).ext
        = slice3 (buildUhat c N (data.headD []).length u)
            (w * c.TRs_per_window) ((w + 1) * c.TRs_per_window) := by
    intro w hw
    have h2 : ((evaluate c data N u).calls.map (fun cl => cl.ext)).getD w []
        = ((evaluate c data N u).calls.getD w ⟨[], [], []⟩).ext :=
      getD_map_fn (fun cl => cl.ext) (evaluate c data N u).calls w ⟨[], [], []⟩
    rw [← h2, hcx, hmapext]
    simp only [List.nil_append]
    exact getD_range_map _ _ hw
  refine ⟨?_, ?_, ?_, ?_⟩
  · rw [hcx]
    have hlen := congrArg List.length hmapext
    simpa using hlen
  · intro nm hm
    rw [hwx, evalSteps_windList_len c _ N _ _ hnd hm]
    have := countP_range_guard N (data.headD []).length
    simpa using this
  · intro w i j l hw hi hj hl
    have hwWN : w < (data.headD []).length + N := by omega
    rw [hext w hwWN]
    have e1 : (w + 1) * c.TRs_per_window
        = w * c.TRs_per_window + c.TRs_per_window := by ring
    rw [get3_slice3 _ _ _ _ _ _ (by omega)]
    have e2 : (w + 1) * c.TRs_per_window ≤ N * c.TRs_per_window :=
      Nat.mul_le_mul_right _ (by omega)
    rw [get3_buildUhat c N (data.headD []).length u hi hj (by omega)]
    rw [if_pos (by omega)]
  · intro w i j l hNw hw hi hj hl
    have hwWN : w < (data.headD []).length + N := by omega
    rw [hext w hwWN]
    have e1 : (w + 1) * c.TRs_per_window
        = w * c.TRs_per_window + c.TRs_per_window := by ring
    rw [get3_slice3 _ _ _ _ _ _ (by omega)]
    have e2 : N * c.TRs_per_window ≤ w * c.TRs_per_window :=
      Nat.mul_le_mul_right _ hNw
    have e3 : (w + 1) * c.TRs_per_window
        ≤ (N + (data.headD []).length) * c.TRs_per_window :=
      Nat.mul_le_mul_right _ (by omega)
    have e4 : (N + (data.headD []).length) * c.TRs_per_window
        = N * c.TRs_per_window + (data.headD []).length * c.TRs_per_window := by
      ring
    rw [get3_buildUhat c N (data.headD []).length u hi hj (by omega)]
    rw [if_neg (by omega)]
    have e5 : (w - N) * c.TRs_per_window
        = w * c.TRs_per_window - N * c.TRs_per_window := Nat.sub_mul w N _
    have e6 : w * c.TRs_per_window + l - N * c.TRs_per_window
        = (w - N) * c.TRs_per_window + l := by omega
    rw [e6]

/-- Witness for C7: a 1-window recording, one burn-in window and the
array stimulus `[[[5]]]`: two forward calls, one buffered window, zero
external input for the burn-in call, stimulus value for the real one. -/
theorem C7_witness :
    (evaluate toyCtx data2 1 (.arr [[[5]]])).calls.length = 1 + 1 ∧
    ((evaluate toyCtx data2 1 (.arr [[[5]]])).windListRaw "bold").length = 1 ∧
    get3 (((evaluate toyCtx data2 1 (.arr [[[5]]])).calls.getD 0
      ⟨[], [], []⟩).ext) 0 0 0 = 0 ∧
    get3 (((evaluate toyCtx data2 1 (.arr [[[5]]])).calls.getD 1
      ⟨[], [], []⟩).ext) 0 0 0 = stimVal (.arr [[[5]]]) 0 0 0 := by
  have main := C7_evaluate_burn_in toyCtx data2 1 (.arr [[[5]]]) (by decide)
  refine ⟨main.1, main.2.1 "bold" (by decide),
    main.2.2.1 0 0 0 0 (by decide) (by decide) (by decide) (by decide), ?_⟩
  have h4 := main.2.2.2 1 0 0 0 (by decide) (by decide) (by decide) (by decide)
    (by decide)
  simpa using h4

end Whobpyt
